import Mathlib

/-!
Verification of the passerine core against its specification.

The Rust sources under `src/` are embedded shallowly: structs become
structures, enums become inductives, `&mut` state becomes explicit state
passing, and fallible code returns `Except`.  Types that the sources use
but that are not part of the provided files (`Span`, `Spanned`, `Data`,
`Opcode`, `FFIFunction`, the `stamp` generator and the `AST` family from
`common/span.rs`, `common/data.rs`, `common/opcode.rs`, `common/stamp.rs`
and `compiler/ast.rs`) are modelled from the specification's data model
and are marked as such in their doc comments.
-/

namespace Passerine

/-- Modelled from the spec: `Span` from `common/span.rs` (not under `src/`).
Per §3 it is an immutable (source handle, byte offset, byte length) triple
with structural equality; an empty span has length 0. -/
structure Span where
  source : String
  offset : Nat
  length : Nat
  deriving DecidableEq, Repr

/-- Modelled from the spec: the distinguished empty span produced by
`Span::empty()` (used by `Lambda::index_span` when no entry qualifies). -/
def Span.empty : Span := ⟨"", 0, 0⟩

/-- Modelled from the spec: `Spanned<T>` from `common/span.rs` (not under
`src/`), a value of type `T` together with the `Span` it came from. -/
structure Spanned (α : Type) where
  item : α
  span : Span
  deriving DecidableEq, Repr

/-- Modelled from the spec: literal `Data` values from `common/data.rs`
(not under `src/`).  §4.2 requires only that equality be structural; the
literal shapes used by the spec's scenarios suffice. -/
inductive Data where
  | Integer (n : Int)
  | String (s : String)
  | Boolean (b : Bool)
  deriving DecidableEq, Repr

/-- `Captured` from `common/lambda.rs`: a variable visible in the current
scope, either local (stack index) or nonlocal (upvalue index). -/
inductive Captured where
  | Local (index : Nat)
  | Nonlocal (index : Nat)
  deriving DecidableEq, Repr

/-- Modelled from the spec: an opaque handle for a foreign function from
`core/ffi.rs` (not under `src/`). -/
structure FFIFunction where
  id : Nat
  deriving DecidableEq, Repr

/-- Modelled from the spec: the opcode set of §4.3 from `common/opcode.rs`
(not under `src/`).  Each instruction is one byte. -/
inductive Opcode where
  | Con
  | NotInit
  | Del
  | Capture
  | Save
  | SaveCap
  | Load
  | LoadCap
  | Call
  | Return
  | Closure
  | Print
  | Label
  | UnLabel
  | UnData
  | Tuple
  | UnTuple
  | Copy
  | FFICall
  deriving DecidableEq, Repr

/-- Modelled from the spec: the byte value of an opcode (`op as u8`).  The
concrete discriminants are not in the provided sources, so the table order
of §4.3 is used; no claim depends on the specific values. -/
def Opcode.toByte : Opcode → Nat
  | .Con => 0
  | .NotInit => 1
  | .Del => 2
  | .Capture => 3
  | .Save => 4
  | .SaveCap => 5
  | .Load => 6
  | .LoadCap => 7
  | .Call => 8
  | .Return => 9
  | .Closure => 10
  | .Print => 11
  | .Label => 12
  | .UnLabel => 13
  | .UnData => 14
  | .Tuple => 15
  | .UnTuple => 16
  | .Copy => 17
  | .FFICall => 18

/-- `Lambda` from `common/lambda.rs`: a single interpretable chunk of
bytecode together with its constant pool, span index, capture list and
FFI table.  Bytes are modelled as natural numbers. -/
structure Lambda where
  decls : Nat
  code : List Nat
  spans : List (Nat × Span)
  constants : List Data
  captures : List Captured
  ffi : List FFIFunction
  deriving DecidableEq, Repr

/-- `Lambda::empty`: a fresh `Lambda` to be filled. -/
def Lambda.empty : Lambda := ⟨0, [], [], [], [], []⟩

/-- `Lambda::emit`: append a single opcode byte. -/
def Lambda.emit (l : Lambda) (op : Opcode) : Lambda :=
  { l with code := l.code ++ [op.toByte] }

/-- `Lambda::emit_bytes`: append a series of bytes. -/
def Lambda.emit_bytes (l : Lambda) (bytes : List Nat) : Lambda :=
  { l with code := l.code ++ bytes }

/-- `Lambda::emit_span`: record (current code length, span). -/
def Lambda.emit_span (l : Lambda) (span : Span) : Lambda :=
  { l with spans := l.spans ++ [(l.code.length, span)] }

/-- `Lambda::demit`: remove the last emitted byte (`self.code.pop()`). -/
def Lambda.demit (l : Lambda) : Lambda :=
  { l with code := l.code.dropLast }

/-- `Iterator::position`: index of the first element satisfying the
predicate, as used by `Lambda::index_data`. -/
def listPosition (p : α → Bool) : List α → Option Nat
  | [] => none
  | x :: xs => if p x then some 0 else (listPosition p xs).map (· + 1)

/-- `Lambda::index_data`: look the value up in the constants table; if an
equal value exists return its index, otherwise push it and return the new
last index. -/
def Lambda.index_data (l : Lambda) (data : Data) : Nat × Lambda :=
  match listPosition (fun d => d = data) l.constants with
  | some d => (d, l)
  | none =>
    let constants := l.constants ++ [data]
    (constants.length - 1, { l with constants := constants })

/-- The scanning loop inside `Lambda::index_span`: walk the span table in
order keeping the latest entry whose offset is not past `index`, stopping
at the first entry beyond it. -/
def indexSpanLoop (index : Nat) : List (Nat × Span) → Span → Span
  | [], best => best
  | (i, span) :: rest, best =>
    if index < i then best else indexSpanLoop index rest span

/-- `Lambda::index_span`: the nearest span at or before the given bytecode
offset, or the empty span when none qualifies. -/
def Lambda.index_span (l : Lambda) (index : Nat) : Span :=
  indexSpanLoop index l.spans Span.empty

/-- `Lambda::add_ffi`: append an FFI function without deduplication. -/
def Lambda.add_ffi (l : Lambda) (function : FFIFunction) : Nat × Lambda :=
  ({ l with ffi := l.ffi ++ [function] }.ffi.length - 1,
    { l with ffi := l.ffi ++ [function] })

/-- `Trace` from `vm/trace.rs`: a runtime error, i.e. a traceback. -/
structure Trace where
  kind : String
  message : String
  spans : List Span
  deriving DecidableEq, Repr

/-- `Trace::error`: creates a new traceback. -/
def Trace.error (kind message : String) (spans : List Span) : Trace :=
  ⟨kind, message, spans⟩

/-- `Trace::add_context`: pushes a span while unwinding the stack. -/
def Trace.add_context (t : Trace) (span : Span) : Trace :=
  { t with spans := t.spans ++ [span] }

/-- The span-printing loop of `impl fmt::Display for Trace`: write each
span of the given list in order. -/
def displaySpansLoop (showSpan : Span → String) : List Span → String
  | [] => ""
  | s :: rest => showSpan s ++ displaySpansLoop showSpan rest

/-- `impl fmt::Display for Trace` from `vm/trace.rs`: the header line,
then every span of `spans.iter().rev()` (the stored list reversed), then
the `Runtime .. Error:` line.  The rendering of a single `Span` lives in
`common/span.rs` (not under `src/`) and is passed in as `showSpan`. -/
def Trace.display (showSpan : Span → String) (t : Trace) : String :=
  "Traceback, most recent call last:\n"
    ++ displaySpansLoop showSpan t.spans.reverse
    ++ ("Runtime " ++ t.kind ++ " Error: " ++ t.message)

/-- The output format the spec's words describe: spans printed so that the
last-pushed span appears last, i.e. in stored order.  Stated only to be
compared against `Trace.display`, which follows the source. -/
def Trace.displayClaimed (showSpan : Span → String) (t : Trace) : String :=
  "Traceback, most recent call last:\n"
    ++ displaySpansLoop showSpan t.spans
    ++ ("Runtime " ++ t.kind ++ " Error: " ++ t.message)

/-- `Syntax` from `compiler/syntax.rs`: a static error (syntax, semantics,
etc.) found at compile time. -/
structure Syntax where
  message : String
  span : Span
  deriving DecidableEq, Repr

/-- `Syntax::error`: creates a new static error. -/
def Syntax.error (message : String) (span : Span) : Syntax :=
  ⟨message, span⟩

/-- Modelled from the spec: `ASTPattern` from `compiler/ast.rs` (not under
`src/`), following the §3 data model. -/
inductive ASTPattern where
  | Symbol (name : String)
  | Data (lit : Passerine.Data)
  | Label (name : String) (pattern : Spanned ASTPattern)
  | Chain (chain : List (Spanned ASTPattern))
  | Tuple (tuple : List (Spanned ASTPattern))

/-- Modelled from the spec: `ArgPattern` from `compiler/ast.rs` (not under
`src/`), following the §3 data model. -/
inductive ArgPattern where
  | Keyword (name : String)
  | Symbol (name : String)
  | Group (pats : List (Spanned ArgPattern))

/-- Modelled from the spec: `AST` from `compiler/ast.rs` (not under
`src/`), following the §3 data model; every child carries a `Span`. -/
inductive AST where
  | Symbol (name : String)
  | Data (lit : Passerine.Data)
  | Block (forms : List (Spanned AST))
  | Form (branches : List (Spanned AST))
  | Group (expression : Spanned AST)
  | Composition (argument : Spanned AST) (function : Spanned AST)
  | CSTPattern (pattern : ASTPattern)
  | ArgPattern (arg_pat : Passerine.ArgPattern)
  | Assign (pattern : Spanned ASTPattern) (expression : Spanned AST)
  | Lambda (pattern : Spanned ASTPattern) (expression : Spanned AST)
  | Label (kind : String) (expression : Spanned AST)
  | Tuple (tuple : List (Spanned AST))
  | Syntax (arg_pat : Spanned Passerine.ArgPattern) (expression : Spanned AST)
  | FFI (name : String) (expression : Spanned AST)

/-- Modelled from the spec: constructor helper `AST::group` from
`compiler/ast.rs` (not under `src/`). -/
def AST.group (expression : Spanned AST) : AST := AST.Group expression

/-- Modelled from the spec: constructor helper `AST::composition`. -/
def AST.composition (argument : Spanned AST) (function : Spanned AST) : AST :=
  AST.Composition argument function

/-- Modelled from the spec: constructor helper `AST::assign`. -/
def AST.assign (pattern : Spanned ASTPattern) (expression : Spanned AST) : AST :=
  AST.Assign pattern expression

/-- Modelled from the spec: constructor helper `AST::lambda`. -/
def AST.lambda (pattern : Spanned ASTPattern) (expression : Spanned AST) : AST :=
  AST.Lambda pattern expression

/-- Modelled from the spec: constructor helper `AST::ffi`. -/
def AST.ffi (name : String) (expression : Spanned AST) : AST :=
  AST.FFI name expression

/-- Modelled from the spec: constructor helper `ASTPattern::label`. -/
def ASTPattern.label (name : String) (pattern : Spanned ASTPattern) : ASTPattern :=
  ASTPattern.Label name pattern

/-- Modelled from the spec: `Spanned::build` from `common/span.rs` (not
under `src/`): a span covering a sequence of spanned nodes. -/
def Spanned.build {α : Type} (l : List (Spanned α)) : Span :=
  match l.head?, l.getLast? with
  | some first, some last =>
    ⟨first.span.source, first.span.offset,
      last.span.offset + last.span.length - first.span.offset⟩
  | _, _ => Span.empty

/-- Modelled from the spec: `TryFrom<AST> for ASTPattern` from
`compiler/ast.rs` (not under `src/`).  §4.5: after `resolve_symbol` the
expander "attempts to view the returned AST as an ASTPattern (it is — a
symbol)"; a resolved AST that is not pattern-viewable is a static error
(§7 "symbol-to-pattern coercion failure").  The `Err` payload is the
message string later wrapped by `Syntax::error`. -/
def ASTPattern.try_from : AST → Except String ASTPattern
  | AST.Symbol name => Except.ok (ASTPattern.Symbol name)
  | _ => Except.error "a spliced value may not be used as a pattern"

/-- Modelled from the spec: `TryFrom<AST> for ArgPattern`, analogous to
the `ASTPattern` conversion (spec §4.5 "expand_arg_pat is analogous"). -/
def ArgPattern.try_from : AST → Except String ArgPattern
  | AST.Symbol name => Except.ok (ArgPattern.Symbol name)
  | _ => Except.error "a spliced value may not be used as an argument pattern"

/-- `Bindings` from `compiler/rule.rs`: relates a name within an argument
pattern to an `AST` slice.  The Rust `HashMap` is modelled as an
association list; all inserts below go through a vacant-entry check, so
keys stay unique. -/
abbrev Bindings := List (String × Spanned AST)

/-- `HashMap::get` on the bindings map: the first entry with the key. -/
def lookupB (b : Bindings) (k : String) : Option (Spanned AST) :=
  (b.find? (fun e => e.1 = k)).map (fun e => e.2)

/-- `HashMap::contains_key` on the bindings map. -/
def containsKey (b : Bindings) (k : String) : Bool :=
  (b.find? (fun e => e.1 = k)).isSome

/-- Insertion of an absent key into the bindings map (all the `insert`
calls in `compiler/rule.rs` are guarded by an absence check). -/
def insertB (b : Bindings) (k : String) (v : Spanned AST) : Bindings :=
  b ++ [(k, v)]

/-- `Rule` from `compiler/rule.rs`: an argument pattern and a replacement
tree. -/
structure Rule where
  arg_pat : Spanned ArgPattern
  tree : Spanned AST

mutual

/-- `Rule::keywords`: all keywords, as strings, used by the macro, in
order of usage, duplicates not filtered. -/
def Rule.keywords : Spanned ArgPattern → List String
  | ⟨ArgPattern.Group pats, _⟩ => Rule.keywordsList pats
  | ⟨ArgPattern.Keyword name, _⟩ => [name]
  | ⟨ArgPattern.Symbol _, _⟩ => []

/-- The loop of `Rule::keywords` over a group's sub-patterns. -/
def Rule.keywordsList : List (Spanned ArgPattern) → List String
  | [] => []
  | pat :: pats => Rule.keywords pat ++ Rule.keywordsList pats

end

/-- `Rule::new`: builds a new rule, rejecting an argument pattern without
pseudokeywords. -/
def Rule.new (arg_pat : Spanned ArgPattern) (tree : Spanned AST) : Except Syntax Rule :=
  if (Rule.keywords arg_pat).isEmpty then
    Except.error (Syntax.error
      "Syntactic macro must have at least one pseudokeyword" arg_pat.span)
  else Except.ok ⟨arg_pat, tree⟩

/-- `Rule::merge_safe`: merge the `new` bindings into `base`; a name bound
in both yields the duplicate-declaration error at the definition span. -/
def Rule.merge_safe (base : Bindings) (new : Bindings) (dspan : Span) :
    Except Syntax Bindings :=
  match new with
  | [] => Except.ok base
  | (n, t) :: rest =>
    if containsKey base n then
      Except.error (Syntax.error
        "Variable has already been declared in syntactic macro argument pattern" dspan)
    else Rule.merge_safe (insertB base n t) rest dspan

/-- `Vec::pop`: remove and return the last element of the vector. -/
def popVec {α : Type} : List α → Option (α × List α)
  | [] => none
  | x :: xs =>
    match popVec xs with
    | none => some (x, [])
    | some (y, ys) => some (y, x :: ys)

/-- The worker behind `str::split(char)`: cut the character list at every
occurrence of the separator. -/
def splitCharAux (c : Char) : List Char → List Char → List String
  | [], acc => [String.mk acc.reverse]
  | x :: xs, acc =>
    if x = c then String.mk acc.reverse :: splitCharAux c xs []
    else splitCharAux c xs (x :: acc)

/-- `str::split(char)` as used by `Rule::remove_tag`: the pieces of the
string between occurrences of the separator, in order; never empty. -/
def splitChar (c : Char) (s : String) : List String :=
  splitCharAux c s.data []

/-- `Rule::remove_tag`: the substring preceding the first `#`
(`base.split('#')` index 0); the input unchanged when there is no `#`. -/
def Rule.remove_tag (base : String) : String :=
  (splitChar '#' base).headD ""

mutual

/-- `Rule::bind`: traverse a form, creating bindings.  The form is passed
unwrapped and reversed, and the Rust code pops from and thereby mutates
it, so the remaining form is returned alongside the outcome: `none` when
the form does not match, `some ok` bindings on a match, `some error` when
it matches but is ill-formed. -/
def Rule.bind :
    Spanned ArgPattern → List (Spanned AST) →
      Option (Except Syntax Bindings) × List (Spanned AST)
  | ⟨ArgPattern.Keyword expected, _⟩, reversed_form =>
    match popVec reversed_form with
    | none => (none, reversed_form)
    | some (node, rest) =>
      match node.item with
      | AST.Symbol name =>
        if Rule.remove_tag name = expected then (some (Except.ok []), rest)
        else (none, rest)
      | _ => (none, rest)
  | ⟨ArgPattern.Symbol symbol, _⟩, reversed_form =>
    match popVec reversed_form with
    | none => (none, reversed_form)
    | some (node, rest) => (some (Except.ok [(symbol, node)]), rest)
  | ⟨ArgPattern.Group pats, _⟩, reversed_form =>
    Rule.bindGroup pats reversed_form []

/-- The loop of `Rule::bind` over a group's sub-patterns, accumulating
bindings through `merge_safe`. -/
def Rule.bindGroup :
    List (Spanned ArgPattern) → List (Spanned AST) → Bindings →
      Option (Except Syntax Bindings) × List (Spanned AST)
  | [], reversed_form, bindings => (some (Except.ok bindings), reversed_form)
  | pat :: pats, reversed_form, bindings =>
    match Rule.bind pat reversed_form with
    | (none, form') => (none, form')
    | (some (Except.error e), form') => (some (Except.error e), form')
    | (some (Except.ok matched), form') =>
      match Rule.merge_safe bindings matched pat.span with
      | Except.error collision => (some (Except.error collision), form')
      | Except.ok merged => Rule.bindGroup pats form' merged

end

/-- Modelled from the spec: hex digit used by the stamp generator. -/
def hexDigit (n : Nat) : Char :=
  if n < 10 then Char.ofNat (48 + n) else Char.ofNat (87 + n)

/-- Modelled from the spec: `stamp` from `common/stamp.rs` (not under
`src/`): a short random-looking eight-character token; §5 requires
determinism given a seed and §9 only that it be a short pseudo-random
token, so it is modelled as the eight-digit hex rendering of the try
counter. -/
def stamp (tries : Nat) : String :=
  String.mk ((List.range 8).map (fun i => hexDigit (tries / 16 ^ (7 - i) % 16)))

/-- The retry loop of `Rule::unique_tag` with the remaining tries made
explicit (the Rust code tries `0..1024` and then aborts; no claim reaches
exhaustion). -/
def Rule.uniqueTagLoop (base : String) (bindings : Bindings) : Nat → Nat → String
  | _, 0 => base ++ "#"
  | tries, fuel + 1 =>
    let modified := base ++ "#" ++ stamp tries
    if containsKey bindings modified then
      Rule.uniqueTagLoop base bindings (tries + 1) fuel
    else modified

/-- `Rule::unique_tag`: a random identifier `<base>#XXXXXXXX` guaranteed
not to exist in `bindings`. -/
def Rule.unique_tag (base : String) (bindings : Bindings) : String :=
  Rule.uniqueTagLoop base bindings 0 1024

/-- `Rule::resolve_symbol`: splice the bound tree when the name is bound;
otherwise generate a unique tag, record it in the bindings, and return the
tagged symbol. -/
def Rule.resolve_symbol (name : String) (span : Span) (bindings : Bindings) :
    Spanned AST × Bindings :=
  match lookupB bindings name with
  | some bound_tree => (bound_tree, bindings)
  | none =>
    let unique := Rule.unique_tag name bindings
    (⟨AST.Symbol unique, span⟩, insertB bindings name ⟨AST.Symbol unique, span⟩)

mutual

/-- `Rule::expand_pattern`: expands the bindings in a pattern.  The Rust
`&mut Bindings` is threaded explicitly; the (possibly grown) bindings map
is returned alongside the outcome, on error as well. -/
def Rule.expand_pattern :
    Spanned ASTPattern → Bindings → Except Syntax (Spanned ASTPattern) × Bindings
  | ⟨ASTPattern.Symbol name, span⟩, bindings =>
    let r := Rule.resolve_symbol name span bindings
    match ASTPattern.try_from r.1.item with
    | Except.ok p => (Except.ok ⟨p, r.1.span⟩, r.2)
    | Except.error s => (Except.error (Syntax.error s span), r.2)
  | ⟨ASTPattern.Data lit, span⟩, bindings =>
    (Except.ok ⟨ASTPattern.Data lit, span⟩, bindings)
  | ⟨ASTPattern.Label name pattern, _⟩, bindings =>
    let span := pattern.span
    match Rule.expand_pattern pattern bindings with
    | (Except.ok p, bindings') =>
      (Except.ok ⟨ASTPattern.label name p, span⟩, bindings')
    | (Except.error e, bindings') => (Except.error e, bindings')
  | ⟨ASTPattern.Chain chain, _⟩, bindings =>
    let span := Spanned.build chain
    match Rule.expandPatternList chain bindings with
    | (Except.ok expanded, bindings') =>
      (Except.ok ⟨ASTPattern.Chain expanded, span⟩, bindings')
    | (Except.error e, bindings') => (Except.error e, bindings')
  | ⟨ASTPattern.Tuple tuple, _⟩, bindings =>
    let span := Spanned.build tuple
    match Rule.expandPatternList tuple bindings with
    | (Except.ok expanded, bindings') =>
      (Except.ok ⟨ASTPattern.Tuple expanded, span⟩, bindings')
    | (Except.error e, bindings') => (Except.error e, bindings')

/-- The `map`/`collect::<Result<Vec<_>, _>>` loop of `Rule::expand_pattern`
over a sequence of sub-patterns: short-circuits on the first error,
keeping the bindings accumulated so far. -/
def Rule.expandPatternList :
    List (Spanned ASTPattern) → Bindings →
      Except Syntax (List (Spanned ASTPattern)) × Bindings
  | [], bindings => (Except.ok [], bindings)
  | p :: ps, bindings =>
    match Rule.expand_pattern p bindings with
    | (Except.error e, bindings') => (Except.error e, bindings')
    | (Except.ok q, bindings') =>
      match Rule.expandPatternList ps bindings' with
      | (Except.error e, bindings'') => (Except.error e, bindings'')
      | (Except.ok qs, bindings'') => (Except.ok (q :: qs), bindings'')

end

mutual

/-- `Rule::expand_arg_pat`: expands the bindings in an argument pattern;
keywords are preserved verbatim, symbols resolved, groups recursed. -/
def Rule.expand_arg_pat :
    Spanned ArgPattern → Bindings → Except Syntax (Spanned ArgPattern) × Bindings
  | ⟨ArgPattern.Keyword name, span⟩, bindings =>
    (Except.ok ⟨ArgPattern.Keyword name, span⟩, bindings)
  | ⟨ArgPattern.Symbol name, span⟩, bindings =>
    let r := Rule.resolve_symbol name span bindings
    match ArgPattern.try_from r.1.item with
    | Except.ok p => (Except.ok ⟨p, r.1.span⟩, r.2)
    | Except.error s => (Except.error (Syntax.error s span), r.2)
  | ⟨ArgPattern.Group sub_pat, _⟩, bindings =>
    let span := Spanned.build sub_pat
    match Rule.expandArgPatList sub_pat bindings with
    | (Except.ok expanded, bindings') =>
      (Except.ok ⟨ArgPattern.Group expanded, span⟩, bindings')
    | (Except.error e, bindings') => (Except.error e, bindings')

/-- The `map`/`collect` loop of `Rule::expand_arg_pat` over a group. -/
def Rule.expandArgPatList :
    List (Spanned ArgPattern) → Bindings →
      Except Syntax (List (Spanned ArgPattern)) × Bindings
  | [], bindings => (Except.ok [], bindings)
  | p :: ps, bindings =>
    match Rule.expand_arg_pat p bindings with
    | (Except.error e, bindings') => (Except.error e, bindings')
    | (Except.ok q, bindings') =>
      match Rule.expandArgPatList ps bindings' with
      | (Except.error e, bindings'') => (Except.error e, bindings'')
      | (Except.ok qs, bindings'') => (Except.ok (q :: qs), bindings'')

end

mutual

/-- `Rule::expand`: takes a macro's tree and a set of bindings and
produces a new hygienic tree; the first static error aborts expansion.
The nested-macro arm expands both sub-components (their effect on the
bindings is kept, the results are discarded as in the Rust code) and then
returns the "Nested macros are not allowed yet" error at the tree's span. -/
def Rule.expand : Spanned AST → Bindings → Except Syntax (Spanned AST) × Bindings
  | ⟨AST.Symbol name, span⟩, bindings =>
    let r := Rule.resolve_symbol name span bindings
    (Except.ok r.1, r.2)
  | ⟨AST.Data lit, span⟩, bindings => (Except.ok ⟨AST.Data lit, span⟩, bindings)
  | ⟨AST.Block forms, span⟩, bindings =>
    match Rule.expandList forms bindings with
    | (Except.ok fs, bindings') => (Except.ok ⟨AST.Block fs, span⟩, bindings')
    | (Except.error e, bindings') => (Except.error e, bindings')
  | ⟨AST.Form branches, span⟩, bindings =>
    match Rule.expandList branches bindings with
    | (Except.ok bs, bindings') => (Except.ok ⟨AST.Form bs, span⟩, bindings')
    | (Except.error e, bindings') => (Except.error e, bindings')
  | ⟨AST.Group expression, span⟩, bindings =>
    match Rule.expand expression bindings with
    | (Except.ok e, bindings') => (Except.ok ⟨AST.group e, span⟩, bindings')
    | (Except.error err, bindings') => (Except.error err, bindings')
  | ⟨AST.Composition argument function, span⟩, bindings =>
    match Rule.expand argument bindings with
    | (Except.error e, bindings') => (Except.error e, bindings')
    | (Except.ok a, bindings') =>
      match Rule.expand function bindings' with
      | (Except.error e, bindings'') => (Except.error e, bindings'')
      | (Except.ok f, bindings'') =>
        (Except.ok ⟨AST.composition a f, span⟩, bindings'')
  | ⟨AST.CSTPattern pattern, span⟩, bindings =>
    match Rule.expand_pattern ⟨pattern, span⟩ bindings with
    | (Except.ok p, bindings') => (Except.ok ⟨AST.CSTPattern p.item, span⟩, bindings')
    | (Except.error e, bindings') => (Except.error e, bindings')
  | ⟨AST.ArgPattern arg_pat, span⟩, bindings =>
    match Rule.expand_arg_pat ⟨arg_pat, span⟩ bindings with
    | (Except.ok p, bindings') => (Except.ok ⟨AST.ArgPattern p.item, span⟩, bindings')
    | (Except.error e, bindings') => (Except.error e, bindings')
  | ⟨AST.Assign pattern expression, span⟩, bindings =>
    match Rule.expand_pattern pattern bindings with
    | (Except.error e, bindings') => (Except.error e, bindings')
    | (Except.ok p, bindings') =>
      match Rule.expand expression bindings' with
      | (Except.error e, bindings'') => (Except.error e, bindings'')
      | (Except.ok e, bindings'') => (Except.ok ⟨AST.assign p e, span⟩, bindings'')
  | ⟨AST.Lambda pattern expression, span⟩, bindings =>
    match Rule.expand_pattern pattern bindings with
    | (Except.error e, bindings') => (Except.error e, bindings')
    | (Except.ok p, bindings') =>
      match Rule.expand expression bindings' with
      | (Except.error e, bindings'') => (Except.error e, bindings'')
      | (Except.ok e, bindings'') => (Except.ok ⟨AST.lambda p e, span⟩, bindings'')
  | ⟨AST.Label kind expression, span⟩, bindings =>
    match Rule.expand expression bindings with
    | (Except.ok e, bindings') => (Except.ok ⟨AST.Label kind e, span⟩, bindings')
    | (Except.error err, bindings') => (Except.error err, bindings')
  | ⟨AST.Tuple tuple, span⟩, bindings =>
    match Rule.expandList tuple bindings with
    | (Except.ok ts, bindings') => (Except.ok ⟨AST.Tuple ts, span⟩, bindings')
    | (Except.error e, bindings') => (Except.error e, bindings')
  | ⟨AST.Syntax arg_pat expression, span⟩, bindings =>
    match Rule.expand_arg_pat arg_pat bindings with
    | (Except.error e, bindings') => (Except.error e, bindings')
    | (Except.ok _ap, bindings') =>
      match Rule.expand expression bindings' with
      | (Except.error e, bindings'') => (Except.error e, bindings'')
      | (Except.ok _e, bindings'') =>
        (Except.error (Syntax.error "Nested macros are not allowed yet" span),
          bindings'')
  | ⟨AST.FFI name expression, span⟩, bindings =>
    match Rule.expand expression bindings with
    | (Except.ok e, bindings') => (Except.ok ⟨AST.ffi name e, span⟩, bindings')
    | (Except.error err, bindings') => (Except.error err, bindings')

/-- The `map`/`collect::<Result<Vec<_>, _>>` loop of `Rule::expand` over a
sequence of forms: short-circuits on the first error, keeping the bindings
accumulated so far. -/
def Rule.expandList :
    List (Spanned AST) → Bindings → Except Syntax (List (Spanned AST)) × Bindings
  | [], bindings => (Except.ok [], bindings)
  | t :: ts, bindings =>
    match Rule.expand t bindings with
    | (Except.error e, bindings') => (Except.error e, bindings')
    | (Except.ok t', bindings') =>
      match Rule.expandList ts bindings' with
      | (Except.error e, bindings'') => (Except.error e, bindings'')
      | (Except.ok ts', bindings'') => (Except.ok (t' :: ts'), bindings'')

end

mutual

/-- Does the tree contain an `AST::Syntax` (nested macro definition) node?
Patterns cannot embed expression trees, so only expression children are
searched. -/
def containsSyntaxNode : Spanned AST → Bool
  | ⟨AST.Symbol _, _⟩ => false
  | ⟨AST.Data _, _⟩ => false
  | ⟨AST.Block forms, _⟩ => containsSyntaxList forms
  | ⟨AST.Form branches, _⟩ => containsSyntaxList branches
  | ⟨AST.Group expression, _⟩ => containsSyntaxNode expression
  | ⟨AST.Composition argument function, _⟩ =>
    containsSyntaxNode argument || containsSyntaxNode function
  | ⟨AST.CSTPattern _, _⟩ => false
  | ⟨AST.ArgPattern _, _⟩ => false
  | ⟨AST.Assign _ expression, _⟩ => containsSyntaxNode expression
  | ⟨AST.Lambda _ expression, _⟩ => containsSyntaxNode expression
  | ⟨AST.Label _ expression, _⟩ => containsSyntaxNode expression
  | ⟨AST.Tuple tuple, _⟩ => containsSyntaxList tuple
  | ⟨AST.Syntax _ _, _⟩ => true
  | ⟨AST.FFI _ expression, _⟩ => containsSyntaxNode expression

/-- Does any tree of the list contain an `AST::Syntax` node? -/
def containsSyntaxList : List (Spanned AST) → Bool
  | [] => false
  | t :: ts => containsSyntaxNode t || containsSyntaxList ts

end

/-- A bindings map all of whose bound trees are plain symbol nodes — the
shape `resolve_symbol` itself produces; in particular the empty map. -/
def allSymbolBindings (b : Bindings) : Prop :=
  ∀ e ∈ b, ∃ n sp, e.2 = Spanned.mk (AST.Symbol n) sp

/-- Is `pat` a contiguous subsequence of the list? -/
def containsSeq [BEq α] (pat : List α) : List α → Bool
  | [] => pat.isEmpty
  | x :: xs => pat.isPrefixOf (x :: xs) || containsSeq pat xs

/-- Does the string contain `pat` as a substring? -/
def strContains (s pat : String) : Bool :=
  containsSeq pat.data s.data

/-! Concrete inputs used by the claim scenarios. -/

/-- The spans used by the C4 concrete scenario. -/
def spanA : Span := ⟨"s", 1, 2⟩

/-- Second span used by the C4 concrete scenario. -/
def spanB : Span := ⟨"s", 3, 4⟩

/-- The Lambda built by the C4 concrete scenario: emit_span(A), emit(Load),
emit_bytes([0x05]), emit_span(B), emit(Return), emit_bytes([0x00]). -/
def lamC4 : Lambda :=
  (((((Lambda.empty.emit_span spanA).emit Opcode.Load).emit_bytes
    [5]).emit_span spanB).emit Opcode.Return).emit_bytes [0]

/-- The two-span trace showing C5 false as written. -/
def traceC5 : Trace := Trace.error "Type" "boom" [⟨"", 0, 1⟩, ⟨"", 1, 1⟩]

/-- The span renderer used by the C5 counterexample. -/
def showC5 : Span → String := fun s => if s.offset = 0 then "[A]" else "[B]"

/-- The C2 argument pattern:
Group([Symbol cond, Keyword then, Symbol a, Keyword else, Symbol b]). -/
def patC2 : Spanned ArgPattern :=
  ⟨ArgPattern.Group
    [⟨ArgPattern.Symbol "cond", Span.empty⟩, ⟨ArgPattern.Keyword "then", Span.empty⟩,
      ⟨ArgPattern.Symbol "a", Span.empty⟩, ⟨ArgPattern.Keyword "else", Span.empty⟩,
      ⟨ArgPattern.Symbol "b", Span.empty⟩], Span.empty⟩

/-- The C2 form [x, then, y, else, z], reversed for matching (the element
to consume first is last). -/
def formC2 : List (Spanned AST) :=
  [⟨AST.Symbol "z", Span.empty⟩, ⟨AST.Symbol "else", Span.empty⟩,
    ⟨AST.Symbol "y", Span.empty⟩, ⟨AST.Symbol "then", Span.empty⟩,
    ⟨AST.Symbol "x", Span.empty⟩]

/-- The C1 rule body: Block[Assign(Symbol "tmp", Data 1), Symbol "tmp"],
with distinct spans on each node so the span bookkeeping is visible. -/
def treeC1 : Spanned AST :=
  ⟨AST.Block
    [⟨AST.Assign ⟨ASTPattern.Symbol "tmp", ⟨"m", 0, 3⟩⟩
        ⟨AST.Data (Data.Integer 1), ⟨"m", 6, 1⟩⟩, ⟨"m", 0, 7⟩⟩,
      ⟨AST.Symbol "tmp", ⟨"m", 8, 3⟩⟩], ⟨"m", 0, 11⟩⟩

/-- The C6 counterexample tree: a nested macro definition whose argument
pattern is the symbol `x`. -/
def treeC6 : Spanned AST :=
  ⟨AST.Syntax ⟨ArgPattern.Symbol "x", ⟨"n", 0, 1⟩⟩
    ⟨AST.Data (Data.Integer 1), ⟨"n", 2, 1⟩⟩, ⟨"n", 0, 3⟩⟩

/-- The C6 counterexample bindings: `x` is bound to a literal, which is
not viewable as an argument pattern. -/
def bindingsC6 : Bindings :=
  [("x", ⟨AST.Data (Data.Integer 1), ⟨"n", 9, 1⟩⟩)]

/-! Lemmas about the bindings map. -/

theorem find?_key_append_left (b1 b2 : Bindings) (k : String) (e : String × Spanned AST)
    (h : b1.find? (fun e => e.1 = k) = some e) :
    (b1 ++ b2).find? (fun e => e.1 = k) = some e := by
  induction b1 with
  | nil => simp at h
  | cons a b1 ih =>
    by_cases hak : a.1 = k
    · rw [List.find?_cons_of_pos _ (by simp [hak])] at h
      rw [List.cons_append, List.find?_cons_of_pos _ (by simp [hak])]
      exact h
    · rw [List.find?_cons_of_neg _ (by simp [hak])] at h
      rw [List.cons_append, List.find?_cons_of_neg _ (by simp [hak])]
      exact ih h

theorem lookupB_append_left (b1 b2 : Bindings) (k : String) (v : Spanned AST)
    (h : lookupB b1 k = some v) : lookupB (b1 ++ b2) k = some v := by
  unfold lookupB at h ⊢
  cases hf : b1.find? (fun e => e.1 = k) with
  | none => rw [hf] at h; simp at h
  | some e =>
    rw [hf] at h
    rw [find?_key_append_left b1 b2 k e hf]
    exact h

theorem lookupB_insertB_preserve (b : Bindings) (n k : String) (t v : Spanned AST)
    (h : lookupB b k = some v) : lookupB (insertB b n t) k = some v :=
  lookupB_append_left b [(n, t)] k v h

theorem containsKey_lookupB_false (b : Bindings) (k : String)
    (h : containsKey b k = false) : lookupB b k = none := by
  unfold containsKey at h
  unfold lookupB
  cases hf : b.find? (fun e => e.1 = k) with
  | none => rfl
  | some e => rw [hf] at h; simp at h

theorem lookupB_insertB_self (b : Bindings) (k : String) (v : Spanned AST)
    (h : containsKey b k = false) : lookupB (insertB b k v) k = some v := by
  unfold containsKey at h
  unfold lookupB insertB
  cases hf : b.find? (fun e => e.1 = k) with
  | none =>
    rw [List.find?_append, hf]
    simp [List.find?]
  | some e => rw [hf] at h; simp at h

theorem containsKey_insertB_elim (b : Bindings) (n k : String) (t : Spanned AST)
    (h : containsKey (insertB b n t) k = true) :
    containsKey b k = true ∨ n = k := by
  unfold containsKey insertB at h
  rw [List.find?_append] at h
  cases hf : b.find? (fun e => e.1 = k) with
  | some e => left; unfold containsKey; rw [hf]; rfl
  | none =>
    rw [hf] at h
    by_cases hnk : n = k
    · right; exact hnk
    · simp [List.find?, hnk] at h

theorem containsKey_insertB_of_true (b : Bindings) (n k : String) (t : Spanned AST)
    (h : containsKey b k = true) : containsKey (insertB b n t) k = true := by
  unfold containsKey at h ⊢
  unfold insertB
  rw [List.find?_append]
  cases hf : b.find? (fun e => e.1 = k) with
  | none => rw [hf] at h; simp at h
  | some e => rfl

theorem containsKey_cons_elim (n k : String) (t : Spanned AST) (rest : Bindings)
    (h : containsKey ((n, t) :: rest) k = true) (hne : ¬(n = k)) :
    containsKey rest k = true := by
  unfold containsKey at h ⊢
  rw [List.find?_cons_of_neg _ (by simp [hne])] at h
  exact h

theorem containsKey_cons_false (n k : String) (t : Spanned AST) (rest : Bindings)
    (h : containsKey ((n, t) :: rest) k = false) :
    containsKey rest k = false := by
  unfold containsKey at h ⊢
  by_cases hnk : n = k
  · rw [List.find?_cons_of_pos _ (by simp [hnk])] at h
    simp at h
  · rw [List.find?_cons_of_neg _ (by simp [hnk])] at h
    exact h

theorem containsKey_eq_false_of_not_mem (b : Bindings) (k : String)
    (h : k ∉ b.map (fun e => e.1)) : containsKey b k = false := by
  induction b with
  | nil => rfl
  | cons a b ih =>
    rw [List.map_cons, List.mem_cons, not_or] at h
    unfold containsKey
    rw [List.find?_cons_of_neg _ (by simp; exact fun he => h.1 he.symm)]
    exact ih h.2

theorem lookupB_cons (n k : String) (t : Spanned AST) (rest : Bindings) :
    lookupB ((n, t) :: rest) k = if n = k then some t else lookupB rest k := by
  by_cases hnk : n = k
  · unfold lookupB
    rw [List.find?_cons_of_pos _ (by simp [hnk]), if_pos hnk]
    rfl
  · unfold lookupB
    rw [List.find?_cons_of_neg _ (by simp [hnk]), if_neg hnk]

/-! Lemmas about `listPosition`, the scanning loops, and display. -/

theorem listPosition_of_getElem {α : Type} [DecidableEq α] (d : α) :
    ∀ (cs : List α) (i : Nat), cs.Nodup → cs[i]? = some d →
      listPosition (fun x => x = d) cs = some i := by
  intro cs
  induction cs with
  | nil => intro i _ h; simp at h
  | cons c cs ih =>
    intro i hnd h
    rw [List.nodup_cons] at hnd
    match i with
    | 0 =>
      rw [List.getElem?_cons_zero, Option.some_inj] at h
      simp [listPosition, h]
    | i + 1 =>
      rw [List.getElem?_cons_succ] at h
      have hmem : d ∈ cs := List.getElem?_mem h
      have hne : ¬(c = d) := fun he => hnd.1 (he ▸ hmem)
      simp [listPosition, hne, ih i hnd.2 h]

theorem listPosition_of_not_mem {α : Type} [DecidableEq α] (d : α) :
    ∀ cs : List α, d ∉ cs → listPosition (fun x => x = d) cs = none := by
  intro cs
  induction cs with
  | nil => intro _; rfl
  | cons c cs ih =>
    intro h
    rw [List.mem_cons, not_or] at h
    have hne : ¬(c = d) := fun he => h.1 he.symm
    simp [listPosition, hne, ih h.2]

theorem indexSpanLoop_sorted (index : Nat) :
    ∀ (spans : List (Nat × Span)) (best : Span),
      spans.Pairwise (fun a b => a.1 ≤ b.1) →
      indexSpanLoop index spans best =
        ((spans.filter (fun p => p.1 ≤ index)).getLast?).elim best (fun p => p.2) := by
  intro spans
  induction spans with
  | nil => intro best _; rfl
  | cons hd tl ih =>
    obtain ⟨i, s⟩ := hd
    intro best hp
    rw [List.pairwise_cons] at hp
    by_cases h : index < i
    · have hfilter : ((i, s) :: tl).filter (fun p => decide (p.1 ≤ index)) = [] := by
        rw [List.filter_eq_nil_iff]
        intro a ha
        rcases List.mem_cons.mp ha with rfl | hmem
        · simpa using h
        · have : i ≤ a.1 := hp.1 a hmem
          simp only [decide_eq_true_eq]
          omega
      rw [hfilter]
      simp [indexSpanLoop, h]
    · have hle : i ≤ index := Nat.le_of_not_lt h
      have hstep : indexSpanLoop index ((i, s) :: tl) best = indexSpanLoop index tl s := by
        simp [indexSpanLoop, h]
      rw [hstep, ih s hp.2]
      have hfilter : ((i, s) :: tl).filter (fun p => decide (p.1 ≤ index))
          = (i, s) :: tl.filter (fun p => decide (p.1 ≤ index)) := by
        simp [hle]
      rw [hfilter]
      cases hfi : tl.filter (fun p => decide (p.1 ≤ index)) with
      | nil => rfl
      | cons a as =>
        rw [List.getLast?_cons_cons]
        cases h2 : (a :: as).getLast? with
        | none => simp at h2
        | some x => simp [List.getLast?_cons_cons, h2]

theorem displaySpansLoop_eq_foldr (showSpan : Span → String) :
    ∀ l : List Span, displaySpansLoop showSpan l = (l.map showSpan).foldr (· ++ ·) "" := by
  intro l
  induction l with
  | nil => rfl
  | cons s rest ih => rw [List.map_cons, List.foldr_cons, ← ih]; rfl

/-! Claim theorems about `Lambda` and `Trace`. -/

/-- Claim C3: `index_data` deduplicates: a value structurally equal to a
stored constant yields that constant's index with the constants unchanged,
a new value is appended and yields the new last index, indices of existing
constants never change meaning, and the concrete scenario
Integer(7), String("x"), Integer(7) yields indices 0, 1, 0 with two
constants stored. -/
theorem index_data_dedup :
    (∀ (l : Lambda) (d : Data) (i : Nat), l.constants.Nodup → l.constants[i]? = some d →
        l.index_data d = (i, l))
    ∧ (∀ (l : Lambda) (d : Data), d ∉ l.constants →
        l.index_data d = (l.constants.length, { l with constants := l.constants ++ [d] }))
    ∧ (∀ (l : Lambda) (d : Data) (i : Nat), i < l.constants.length →
        (l.index_data d).2.constants[i]? = l.constants[i]?)
    ∧ (Lambda.empty.index_data (Data.Integer 7)).1 = 0
    ∧ ((Lambda.empty.index_data (Data.Integer 7)).2.index_data (Data.String "x")).1 = 1
    ∧ (((Lambda.empty.index_data (Data.Integer 7)).2.index_data
        (Data.String "x")).2.index_data (Data.Integer 7)).1 = 0
    ∧ (((Lambda.empty.index_data (Data.Integer 7)).2.index_data
        (Data.String "x")).2.index_data (Data.Integer 7)).2.constants.length = 2 := by
  refine ⟨?_, ?_, ?_, rfl, rfl, rfl, rfl⟩
  · intro l d i hnd h
    unfold Lambda.index_data
    rw [listPosition_of_getElem d l.constants i hnd h]
  · intro l d h
    unfold Lambda.index_data
    rw [listPosition_of_not_mem d l.constants h]
    simp
  · intro l d i hi
    unfold Lambda.index_data
    cases hpos : listPosition (fun x => x = d) l.constants with
    | some j => rfl
    | none =>
      simp only
      rw [List.getElem?_append_left hi]

/-- Witness for C3: looking up a stored constant returns its index and
leaves the Lambda unchanged. -/
theorem index_data_dedup_witness :
    ({ Lambda.empty with constants := [Data.Integer 7, Data.String "x"] } : Lambda).index_data
        (Data.String "x")
      = (1, { Lambda.empty with constants := [Data.Integer 7, Data.String "x"] }) :=
  index_data_dedup.1 _ _ 1 (by decide) (by decide)

/-- Claim C4: on a Lambda whose span table is sorted non-decreasing by
offset, `index_span` returns the span of the last entry with offset at
most the queried offset (ties to the later entry), or the empty span when
none qualifies; the concrete emit sequence behaves as the spec's scenario
states. -/
theorem index_span_monotonic :
    (∀ (l : Lambda) (index : Nat),
        l.spans.Pairwise (fun a b => a.1 ≤ b.1) →
        l.index_span index =
          ((l.spans.filter (fun p => p.1 ≤ index)).getLast?).elim Span.empty (fun p => p.2))
    ∧ lamC4.index_span 0 = spanA
    ∧ lamC4.index_span 1 = spanA
    ∧ lamC4.index_span 2 = spanB
    ∧ lamC4.index_span 99 = spanB := by
  refine ⟨?_, rfl, rfl, rfl, rfl⟩
  intro l index h
  exact indexSpanLoop_sorted index l.spans Span.empty h

/-- Witness for C4: the sortedness hypothesis holds of the scenario Lambda
and the general statement evaluates there. -/
theorem index_span_monotonic_witness :
    lamC4.index_span 2 =
      ((lamC4.spans.filter (fun p => p.1 ≤ 2)).getLast?).elim Span.empty (fun p => p.2) :=
  index_span_monotonic.1 lamC4 2 (by decide)

/-- Claim C10: `demit` on a Lambda with empty code leaves it entirely
unchanged, and in general modifies at most the `code` field, leaving
`decls`, `spans`, `constants`, `captures` and `ffi` exactly as they were. -/
theorem demit_frame :
    (∀ l : Lambda, l.code = [] → l.demit = l)
    ∧ (∀ l : Lambda, l.demit.decls = l.decls ∧ l.demit.spans = l.spans
        ∧ l.demit.constants = l.constants ∧ l.demit.captures = l.captures
        ∧ l.demit.ffi = l.ffi ∧ l.demit.code = l.code.dropLast) := by
  constructor
  · intro l h
    have hc : l.code.dropLast = l.code := by rw [h]; rfl
    unfold Lambda.demit
    rw [hc]
  · intro l
    exact ⟨rfl, rfl, rfl, rfl, rfl, rfl⟩

/-- Witness for C10: `demit` on the empty Lambda is the identity. -/
theorem demit_frame_witness : Lambda.empty.demit = Lambda.empty :=
  demit_frame.1 Lambda.empty rfl

/-- Claim C5 (amended): Display prints the traceback header, then the
stored spans in reverse iteration order — so the last-pushed span appears
first and the first-pushed span appears last — then the Runtime error
line.  (The claim as written says the last-pushed span appears last; the
counterexample shows the code prints it first.) -/
theorem trace_display_order :
    ∀ (showSpan : Span → String) (t : Trace),
      Trace.display showSpan t =
        "Traceback, most recent call last:\n"
          ++ (t.spans.reverse.map showSpan).foldr (· ++ ·) ""
          ++ ("Runtime " ++ t.kind ++ " Error: " ++ t.message)
      ∧ (∀ (s : Span) (rest : List Span), t.spans = rest ++ [s] →
          Trace.display showSpan t =
            "Traceback, most recent call last:\n"
              ++ (showSpan s ++ (rest.reverse.map showSpan).foldr (· ++ ·) "")
              ++ ("Runtime " ++ t.kind ++ " Error: " ++ t.message)) := by
  intro showSpan t
  constructor
  · unfold Trace.display
    rw [displaySpansLoop_eq_foldr]
  · intro s rest h
    unfold Trace.display
    rw [displaySpansLoop_eq_foldr, h, List.reverse_append]
    rfl

/-- Witness for C5's amended theorem: at a concrete two-span trace the
last-pushed span is printed first. -/
theorem trace_display_order_witness :
    Trace.display (fun s => if s.offset = 0 then "[A]" else "[B]")
        (Trace.error "Type" "boom" [⟨"", 0, 1⟩, ⟨"", 1, 1⟩])
      = "Traceback, most recent call last:\n"
          ++ ((fun s => if s.offset = 0 then "[A]" else "[B]") (⟨"", 1, 1⟩ : Span)
              ++ ([Span.mk "" 0 1].reverse.map
                  (fun s => if s.offset = 0 then "[A]" else "[B]")).foldr (· ++ ·) "")
          ++ ("Runtime " ++ "Type" ++ " Error: " ++ "boom") :=
  (trace_display_order (fun s => if s.offset = 0 then "[A]" else "[B]")
    (Trace.error "Type" "boom" [⟨"", 0, 1⟩, ⟨"", 1, 1⟩])).2 ⟨"", 1, 1⟩ [⟨"", 0, 1⟩] rfl

/-- Counterexample to claim C5 as written: with two stored spans the
last-pushed span `⟨"", 1, 1⟩` (rendered "[B]") is printed first, not last,
so the actual output differs from the claimed one. -/
theorem trace_display_order_counterexample :
    Trace.display showC5 traceC5 ≠ Trace.displayClaimed showC5 traceC5
    ∧ Trace.display showC5 traceC5
        = "Traceback, most recent call last:\n[B][A]Runtime Type Error: boom"
    ∧ Trace.displayClaimed showC5 traceC5
        = "Traceback, most recent call last:\n[A][B]Runtime Type Error: boom" := by
  refine ⟨?_, rfl, rfl⟩
  decide

/-! Claim theorems about `Rule::bind` and `Rule::merge_safe`. -/

/-- Claim C2: on the if-then-else pattern the reversed form binds exactly
cond to x, a to y and b to z and is consumed whole; in general a Symbol
sub-pattern consumes one node and binds it, and fails with `none` on an
empty form. -/
theorem bind_keyword_match :
    Rule.bind patC2 formC2
      = (some (Except.ok
          [("cond", ⟨AST.Symbol "x", Span.empty⟩),
            ("a", ⟨AST.Symbol "y", Span.empty⟩),
            ("b", ⟨AST.Symbol "z", Span.empty⟩)]), [])
    ∧ (∀ (s : String) (sp : Span) (form : List (Spanned AST))
        (node : Spanned AST) (rest : List (Spanned AST)),
        popVec form = some (node, rest) →
        Rule.bind ⟨ArgPattern.Symbol s, sp⟩ form = (some (Except.ok [(s, node)]), rest))
    ∧ (∀ (s : String) (sp : Span),
        Rule.bind ⟨ArgPattern.Symbol s, sp⟩ [] = (none, [])) := by
  refine ⟨?_, ?_, ?_⟩
  · simp +decide [patC2, formC2, Rule.bind, Rule.bindGroup, Rule.merge_safe, popVec,
      containsKey, insertB, Rule.remove_tag]
  · intro s sp form node rest h
    simp [Rule.bind, h]
  · intro s sp
    simp [Rule.bind, popVec]

/-- Witness for C2: a Symbol sub-pattern consumes the single node of a
one-element form and binds it. -/
theorem bind_keyword_match_witness :
    Rule.bind ⟨ArgPattern.Symbol "w", Span.empty⟩ [⟨AST.Symbol "q", Span.empty⟩]
      = (some (Except.ok [("w", ⟨AST.Symbol "q", Span.empty⟩)]), []) :=
  bind_keyword_match.2.1 "w" Span.empty [⟨AST.Symbol "q", Span.empty⟩]
    ⟨AST.Symbol "q", Span.empty⟩ [] rfl

/-- Claim C7: `merge_safe` succeeds when the key sets are disjoint and the
result keeps every entry of base and of new; a key bound on both sides
yields the collision error carrying the provided definition span. -/
theorem merge_safe_spec :
    (∀ (new base : Bindings) (dspan : Span),
        (new.map (fun e => e.1)).Nodup →
        (∀ k, containsKey base k = true → containsKey new k = false) →
        ∃ b', Rule.merge_safe base new dspan = Except.ok b'
          ∧ (∀ k v, lookupB base k = some v → lookupB b' k = some v)
          ∧ (∀ k v, lookupB new k = some v → lookupB b' k = some v))
    ∧ (∀ (new base : Bindings) (dspan : Span) (k : String),
        containsKey base k = true → containsKey new k = true →
        Rule.merge_safe base new dspan = Except.error (Syntax.error
          "Variable has already been declared in syntactic macro argument pattern"
          dspan)) := by
  constructor
  · intro new
    induction new with
    | nil =>
      intro base dspan _ _
      refine ⟨base, rfl, fun k v h => h, ?_⟩
      intro k v h
      simp [lookupB] at h
    | cons e rest ih =>
      obtain ⟨n, t⟩ := e
      intro base dspan hnd hdisj
      have hnew_n : containsKey ((n, t) :: rest) n = true := by
        unfold containsKey
        rw [List.find?_cons_of_pos _ (by simp)]
        rfl
      have hbase_n : containsKey base n = false := by
        cases hb : containsKey base n with
        | false => rfl
        | true => rw [hdisj n hb] at hnew_n; cases hnew_n
      rw [List.map_cons, List.nodup_cons] at hnd
      have hdisj' : ∀ k, containsKey (insertB base n t) k = true →
          containsKey rest k = false := by
        intro k hk
        rcases containsKey_insertB_elim base n k t hk with hbk | rfl
        · exact containsKey_cons_false n k t rest (hdisj k hbk)
        · exact containsKey_eq_false_of_not_mem rest n hnd.1
      obtain ⟨b', hb', hbase_pres, hrest_pres⟩ :=
        ih (insertB base n t) dspan hnd.2 hdisj'
      refine ⟨b', ?_, ?_, ?_⟩
      · rw [Rule.merge_safe, if_neg (by rw [hbase_n]; simp)]
        exact hb'
      · intro k v h
        exact hbase_pres k v (lookupB_insertB_preserve base n k t v h)
      · intro k v h
        rw [lookupB_cons] at h
        by_cases hnk : n = k
        · rw [if_pos hnk] at h
          subst hnk
          cases h
          exact hbase_pres n t (lookupB_insertB_self base n t hbase_n)
        · rw [if_neg hnk] at h
          exact hrest_pres k v h
  · intro new
    induction new with
    | nil =>
      intro base dspan k _ hk
      simp [containsKey] at hk
    | cons e rest ih =>
      obtain ⟨n, t⟩ := e
      intro base dspan k hbase hnew
      cases hb : containsKey base n with
      | true => rw [Rule.merge_safe, if_pos (by rw [hb])]
      | false =>
        have hnk : ¬(n = k) := by
          intro he
          rw [he, hbase] at hb
          cases hb
        have hrest : containsKey rest k = true :=
          containsKey_cons_elim n k t rest hnew hnk
        have hbase' : containsKey (insertB base n t) k = true :=
          containsKey_insertB_of_true base n k t hbase
        rw [Rule.merge_safe, if_neg (by rw [hb]; simp)]
        exact ih (insertB base n t) dspan k hbase' hrest

/-- Witness for C7: merging a map that shares the key "k" with the base
fails with the collision error at the given span. -/
theorem merge_safe_spec_witness :
    Rule.merge_safe [("k", ⟨AST.Symbol "v", Span.empty⟩)]
        [("k", ⟨AST.Symbol "w", Span.empty⟩)] (⟨"s", 4, 2⟩ : Span)
      = Except.error (Syntax.error
          "Variable has already been declared in syntactic macro argument pattern"
          ⟨"s", 4, 2⟩) :=
  merge_safe_spec.2 [("k", ⟨AST.Symbol "w", Span.empty⟩)]
    [("k", ⟨AST.Symbol "v", Span.empty⟩)] ⟨"s", 4, 2⟩ "k" rfl rfl

/-! Monotonicity of the bindings map under expansion. -/

theorem resolve_symbol_grows (name : String) (span : Span) (b : Bindings) :
    b <+: (Rule.resolve_symbol name span b).2 := by
  cases hl : lookupB b name with
  | some t =>
    simp only [Rule.resolve_symbol, hl]
    exact List.prefix_rfl
  | none =>
    simp only [Rule.resolve_symbol, hl, insertB]
    exact List.prefix_append b _

theorem expand_pattern_grows :
    ∀ (p : Spanned ASTPattern) (b : Bindings), b <+: (Rule.expand_pattern p b).2 := by
  apply Rule.expand_pattern.induct
    (fun p b => b <+: (Rule.expand_pattern p b).2)
    (fun l b => b <+: (Rule.expandPatternList l b).2)
  all_goals intros
  all_goals simp_all only [Rule.expand_pattern, Rule.expandPatternList]
  all_goals solve_by_elim [List.IsPrefix.trans, resolve_symbol_grows, List.prefix_rfl]

theorem expandPatternList_grows :
    ∀ (l : List (Spanned ASTPattern)) (b : Bindings),
      b <+: (Rule.expandPatternList l b).2 := by
  apply Rule.expandPatternList.induct
    (fun p b => b <+: (Rule.expand_pattern p b).2)
    (fun l b => b <+: (Rule.expandPatternList l b).2)
  all_goals intros
  all_goals simp_all only [Rule.expand_pattern, Rule.expandPatternList]
  all_goals solve_by_elim [List.IsPrefix.trans, resolve_symbol_grows, List.prefix_rfl]

theorem expand_pattern_grows_of_eq (p : Spanned ASTPattern) (b b' : Bindings)
    (r : Except Syntax (Spanned ASTPattern)) (h : Rule.expand_pattern p b = (r, b')) :
    b <+: b' := by
  have hp := expand_pattern_grows p b
  rw [h] at hp
  exact hp

theorem expand_arg_pat_grows :
    ∀ (p : Spanned ArgPattern) (b : Bindings), b <+: (Rule.expand_arg_pat p b).2 := by
  apply Rule.expand_arg_pat.induct
    (fun p b => b <+: (Rule.expand_arg_pat p b).2)
    (fun l b => b <+: (Rule.expandArgPatList l b).2)
  all_goals intros
  all_goals simp_all only [Rule.expand_arg_pat, Rule.expandArgPatList]
  all_goals solve_by_elim [List.IsPrefix.trans, resolve_symbol_grows, List.prefix_rfl]

theorem expand_arg_pat_grows_of_eq (p : Spanned ArgPattern) (b b' : Bindings)
    (r : Except Syntax (Spanned ArgPattern)) (h : Rule.expand_arg_pat p b = (r, b')) :
    b <+: b' := by
  have hp := expand_arg_pat_grows p b
  rw [h] at hp
  exact hp

theorem expand_grows :
    ∀ (t : Spanned AST) (b : Bindings), b <+: (Rule.expand t b).2 := by
  apply Rule.expand.induct
    (fun t b => b <+: (Rule.expand t b).2)
    (fun l b => b <+: (Rule.expandList l b).2)
  all_goals intros
  all_goals simp_all only [Rule.expand, Rule.expandList]
  all_goals solve_by_elim [List.IsPrefix.trans, resolve_symbol_grows, List.prefix_rfl,
    expand_pattern_grows_of_eq, expand_arg_pat_grows_of_eq]

theorem lookupB_of_extension (b b' : Bindings) (k : String) (v : Spanned AST)
    (hp : b <+: b') (h : lookupB b k = some v) : lookupB b' k = some v := by
  obtain ⟨t, rfl⟩ := hp
  exact lookupB_append_left b t k v h

/-- Claim C9: the bindings map only grows during expansion: every entry
present before a call to resolve_symbol, expand, expand_pattern or
expand_arg_pat is still present, bound to the same tree, afterwards —
whether the call succeeds or errors; entries are never removed or
overwritten. -/
theorem bindings_monotone :
    (∀ (name : String) (span : Span) (b : Bindings) (k : String) (v : Spanned AST),
        lookupB b k = some v → lookupB (Rule.resolve_symbol name span b).2 k = some v)
    ∧ (∀ (t : Spanned AST) (b : Bindings) (k : String) (v : Spanned AST),
        lookupB b k = some v → lookupB (Rule.expand t b).2 k = some v)
    ∧ (∀ (p : Spanned ASTPattern) (b : Bindings) (k : String) (v : Spanned AST),
        lookupB b k = some v → lookupB (Rule.expand_pattern p b).2 k = some v)
    ∧ (∀ (p : Spanned ArgPattern) (b : Bindings) (k : String) (v : Spanned AST),
        lookupB b k = some v → lookupB (Rule.expand_arg_pat p b).2 k = some v) := by
  refine ⟨?_, ?_, ?_, ?_⟩
  · intro name span b k v h
    exact lookupB_of_extension b _ k v (resolve_symbol_grows name span b) h
  · intro t b k v h
    exact lookupB_of_extension b _ k v (expand_grows t b) h
  · intro p b k v h
    exact lookupB_of_extension b _ k v (expand_pattern_grows p b) h
  · intro p b k v h
    exact lookupB_of_extension b _ k v (expand_arg_pat_grows p b) h

/-- Witness for C9: resolving a fresh symbol keeps the existing binding of
"x" intact. -/
theorem bindings_monotone_witness :
    lookupB (Rule.resolve_symbol "y" Span.empty
        [("x", ⟨AST.Symbol "x0", Span.empty⟩)]).2 "x"
      = some ⟨AST.Symbol "x0", Span.empty⟩ :=
  bindings_monotone.1 "y" Span.empty [("x", ⟨AST.Symbol "x0", Span.empty⟩)] "x"
    ⟨AST.Symbol "x0", Span.empty⟩ rfl

/-! Keyword preservation under argument-pattern expansion. -/

theorem argPattern_try_from_ok (a : AST) (p : ArgPattern)
    (h : ArgPattern.try_from a = Except.ok p) : ∃ n, p = ArgPattern.Symbol n := by
  cases a <;> simp [ArgPattern.try_from] at h
  exact ⟨_, h.symm⟩

theorem expand_arg_pat_symbol_keywords (name : String) (span : Span) (b : Bindings)
    (q : Spanned ArgPattern) (b' : Bindings)
    (h : Rule.expand_arg_pat ⟨ArgPattern.Symbol name, span⟩ b = (Except.ok q, b')) :
    Rule.keywords q = [] := by
  simp only [Rule.expand_arg_pat] at h
  cases htf : ArgPattern.try_from (Rule.resolve_symbol name span b).1.item with
  | error s => rw [htf] at h; simp at h
  | ok p0 =>
    rw [htf] at h
    simp only [Prod.mk.injEq, Except.ok.injEq] at h
    obtain ⟨n, rfl⟩ := argPattern_try_from_ok _ p0 htf
    rw [← h.1]
    simp [Rule.keywords]

/-- Claim C8: whenever `expand_arg_pat` succeeds, the keywords of the
expanded pattern are exactly the keywords of the original pattern — same
names, same left-to-right order, duplicates preserved. -/
theorem keywords_preserved :
    ∀ (p : Spanned ArgPattern) (b : Bindings) (q : Spanned ArgPattern) (b' : Bindings),
      Rule.expand_arg_pat p b = (Except.ok q, b') →
      Rule.keywords q = Rule.keywords p := by
  apply Rule.expand_arg_pat.induct
    (fun p b => ∀ q b', Rule.expand_arg_pat p b = (Except.ok q, b') →
      Rule.keywords q = Rule.keywords p)
    (fun l b => ∀ qs b', Rule.expandArgPatList l b = (Except.ok qs, b') →
      Rule.keywordsList qs = Rule.keywordsList l)
  · intro name span bindings q b' h
    simp only [Rule.expand_arg_pat, Prod.mk.injEq, Except.ok.injEq] at h
    rw [← h.1]
  · intro name span bindings r p0 htf q b' h
    rw [expand_arg_pat_symbol_keywords name span bindings q b' h]
    simp [Rule.keywords]
  · intro name span bindings r s htf q b' h
    rw [expand_arg_pat_symbol_keywords name span bindings q b' h]
    simp [Rule.keywords]
  · intro sub_pat span bindings expanded bindings' heq ih q b' h
    simp only [Rule.expand_arg_pat, heq, Prod.mk.injEq, Except.ok.injEq] at h
    rw [← h.1]
    simp only [Rule.keywords]
    exact ih expanded bindings' heq
  · intro sub_pat span bindings e bindings' heq _ q b' h
    simp [Rule.expand_arg_pat, heq] at h
  · intro bindings qs b' h
    simp only [Rule.expandArgPatList, Prod.mk.injEq, Except.ok.injEq] at h
    rw [← h.1]
  · intro p ps bindings e bindings' heq _ qs b' h
    simp [Rule.expandArgPatList, heq] at h
  · intro p ps bindings q0 bindings' heq1 e bindings'' heq2 _ _ qs b' h
    simp [Rule.expandArgPatList, heq1, heq2] at h
  · intro p ps bindings q0 bindings' heq1 qs0 bindings'' heq2 ih1 ih2 qs b' h
    simp only [Rule.expandArgPatList, heq1, heq2, Prod.mk.injEq, Except.ok.injEq] at h
    rw [← h.1]
    simp only [Rule.keywordsList]
    rw [ih1 q0 bindings' heq1, ih2 qs0 bindings'' heq2]

/-- Witness for C8: expanding Group([Symbol x, Keyword k]) with empty
bindings succeeds and preserves the keyword list ["k"]. -/
theorem keywords_preserved_witness :
    Rule.keywords
        ⟨ArgPattern.Group [⟨ArgPattern.Symbol "x#00000000", Span.empty⟩,
          ⟨ArgPattern.Keyword "k", Span.empty⟩], Span.empty⟩
      = Rule.keywords
          ⟨ArgPattern.Group [⟨ArgPattern.Symbol "x", Span.empty⟩,
            ⟨ArgPattern.Keyword "k", Span.empty⟩], Span.empty⟩ :=
  keywords_preserved
    ⟨ArgPattern.Group [⟨ArgPattern.Symbol "x", Span.empty⟩,
      ⟨ArgPattern.Keyword "k", Span.empty⟩], Span.empty⟩
    []
    ⟨ArgPattern.Group [⟨ArgPattern.Symbol "x#00000000", Span.empty⟩,
      ⟨ArgPattern.Keyword "k", Span.empty⟩], Span.empty⟩
    [("x", ⟨AST.Symbol "x#00000000", Span.empty⟩)]
    (by
      have hx : Rule.resolve_symbol "x" Span.empty []
          = (⟨AST.Symbol "x#00000000", Span.empty⟩,
            [("x", ⟨AST.Symbol "x#00000000", Span.empty⟩)]) := rfl
      have hsp : Spanned.build [⟨ArgPattern.Symbol "x", Span.empty⟩,
          ⟨ArgPattern.Keyword "k", Span.empty⟩] = Span.empty := rfl
      simp only [Rule.expand_arg_pat, Rule.expandArgPatList, hx, hsp,
        ArgPattern.try_from])

/-! Hygiene: the concrete scenario of claim C1. -/

theorem unique_tag_tmp_empty : Rule.unique_tag "tmp" [] = "tmp#00000000" := rfl

/-- Claim C1: expanding Block[Assign(Symbol "tmp", Data 1), Symbol "tmp"]
with empty bindings succeeds and replaces both occurrences of the unbound
symbol `tmp` with the same generated symbol "tmp#00000000" (of the form
`tmp#stamp`), whose remove_tag is "tmp"; and in general a `resolve_symbol`
call for a name already inserted returns the already-bound tree and leaves
the bindings unchanged, so every later occurrence resolves to the same
symbol as the first. -/
theorem expand_hygiene :
    (Rule.expand treeC1 []
      = (Except.ok ⟨AST.Block
          [⟨AST.Assign ⟨ASTPattern.Symbol "tmp#00000000", ⟨"m", 0, 3⟩⟩
              ⟨AST.Data (Data.Integer 1), ⟨"m", 6, 1⟩⟩, ⟨"m", 0, 7⟩⟩,
            ⟨AST.Symbol "tmp#00000000", ⟨"m", 0, 3⟩⟩], ⟨"m", 0, 11⟩⟩,
        [("tmp", ⟨AST.Symbol "tmp#00000000", ⟨"m", 0, 3⟩⟩)]))
    ∧ Rule.remove_tag "tmp#00000000" = "tmp"
    ∧ (∀ (name : String) (span : Span) (b : Bindings) (v : Spanned AST),
        lookupB b name = some v → Rule.resolve_symbol name span b = (v, b)) := by
  refine ⟨?_, rfl, ?_⟩
  · simp [treeC1, Rule.expand, Rule.expandList, Rule.expand_pattern,
      Rule.resolve_symbol, lookupB, containsKey, insertB, ASTPattern.try_from,
      AST.assign, unique_tag_tmp_empty]
  · intro name span b v h
    simp [Rule.resolve_symbol, h]

/-- Witness for C1: resolving a name already inserted returns the stored
symbol and leaves the bindings unchanged. -/
theorem expand_hygiene_witness :
    Rule.resolve_symbol "tmp" Span.empty
        [("tmp", ⟨AST.Symbol "tmp#00000000", ⟨"m", 0, 3⟩⟩)]
      = (⟨AST.Symbol "tmp#00000000", ⟨"m", 0, 3⟩⟩,
        [("tmp", ⟨AST.Symbol "tmp#00000000", ⟨"m", 0, 3⟩⟩)]) :=
  expand_hygiene.2.2 "tmp" Span.empty
    [("tmp", ⟨AST.Symbol "tmp#00000000", ⟨"m", 0, 3⟩⟩)]
    ⟨AST.Symbol "tmp#00000000", ⟨"m", 0, 3⟩⟩ rfl

/-! Under all-symbol bindings, expansion keeps the bindings all-symbol. -/

theorem resolve_symbol_allSymbol (name : String) (span : Span) (b : Bindings)
    (hb : allSymbolBindings b) :
    allSymbolBindings (Rule.resolve_symbol name span b).2
      ∧ ∃ n sp, (Rule.resolve_symbol name span b).1 = Spanned.mk (AST.Symbol n) sp := by
  cases hl : lookupB b name with
  | some v =>
    have hmem : ∃ entry ∈ b, entry.2 = v := by
      unfold lookupB at hl
      cases hf : b.find? (fun e => e.1 = name) with
      | none => rw [hf] at hl; simp at hl
      | some entry =>
        rw [hf] at hl
        simp at hl
        exact ⟨entry, List.mem_of_find?_eq_some hf, hl⟩
    simp only [Rule.resolve_symbol, hl]
    refine ⟨hb, ?_⟩
    obtain ⟨entry, hin, hev⟩ := hmem
    obtain ⟨n, sp, hshape⟩ := hb entry hin
    exact ⟨n, sp, by rw [← hev, hshape]⟩
  | none =>
    simp only [Rule.resolve_symbol, hl]
    refine ⟨?_, ⟨_, _, rfl⟩⟩
    intro e he
    rcases List.mem_append.mp he with hin | hin
    · exact hb e hin
    · rw [List.mem_singleton] at hin
      rw [hin]
      exact ⟨_, _, rfl⟩

theorem resolve_symbol_allSymbol_snd (name : String) (span : Span) (b : Bindings)
    (hb : allSymbolBindings b) :
    allSymbolBindings (Rule.resolve_symbol name span b).2 :=
  (resolve_symbol_allSymbol name span b hb).1

theorem expand_pattern_allSymbol :
    ∀ (p : Spanned ASTPattern) (b : Bindings),
      allSymbolBindings b → allSymbolBindings (Rule.expand_pattern p b).2 := by
  apply Rule.expand_pattern.induct
    (fun p b => allSymbolBindings b → allSymbolBindings (Rule.expand_pattern p b).2)
    (fun l b => allSymbolBindings b → allSymbolBindings (Rule.expandPatternList l b).2)
  all_goals intros
  all_goals simp_all only [Rule.expand_pattern, Rule.expandPatternList]
  all_goals solve_by_elim [resolve_symbol_allSymbol_snd]

theorem expand_pattern_allSymbol_of_eq (p : Spanned ASTPattern) (b b' : Bindings)
    (r : Except Syntax (Spanned ASTPattern)) (hb : allSymbolBindings b)
    (h : Rule.expand_pattern p b = (r, b')) : allSymbolBindings b' := by
  have hp := expand_pattern_allSymbol p b hb
  rw [h] at hp
  exact hp

theorem expand_arg_pat_allSymbol :
    ∀ (p : Spanned ArgPattern) (b : Bindings),
      allSymbolBindings b → allSymbolBindings (Rule.expand_arg_pat p b).2 := by
  apply Rule.expand_arg_pat.induct
    (fun p b => allSymbolBindings b → allSymbolBindings (Rule.expand_arg_pat p b).2)
    (fun l b => allSymbolBindings b → allSymbolBindings (Rule.expandArgPatList l b).2)
  all_goals intros
  all_goals simp_all only [Rule.expand_arg_pat, Rule.expandArgPatList]
  all_goals solve_by_elim [resolve_symbol_allSymbol_snd]

theorem expand_arg_pat_allSymbol_of_eq (p : Spanned ArgPattern) (b b' : Bindings)
    (r : Except Syntax (Spanned ArgPattern)) (hb : allSymbolBindings b)
    (h : Rule.expand_arg_pat p b = (r, b')) : allSymbolBindings b' := by
  have hp := expand_arg_pat_allSymbol p b hb
  rw [h] at hp
  exact hp

theorem expand_allSymbol :
    ∀ (t : Spanned AST) (b : Bindings),
      allSymbolBindings b → allSymbolBindings (Rule.expand t b).2 := by
  apply Rule.expand.induct
    (fun t b => allSymbolBindings b → allSymbolBindings (Rule.expand t b).2)
    (fun l b => allSymbolBindings b → allSymbolBindings (Rule.expandList l b).2)
  all_goals intros
  all_goals simp_all only [Rule.expand, Rule.expandList]
  all_goals solve_by_elim [resolve_symbol_allSymbol_snd,
    expand_pattern_allSymbol_of_eq, expand_arg_pat_allSymbol_of_eq]

theorem expand_allSymbol_of_eq (t : Spanned AST) (b b' : Bindings)
    (r : Except Syntax (Spanned AST)) (hb : allSymbolBindings b)
    (h : Rule.expand t b = (r, b')) : allSymbolBindings b' := by
  have hp := expand_allSymbol t b hb
  rw [h] at hp
  exact hp

/-! Under all-symbol bindings, pattern expansion cannot fail: the only
error sources in expand_pattern and expand_arg_pat are the
symbol-to-pattern coercions, and a resolved tree is always a symbol. -/

theorem expand_pattern_no_error :
    ∀ (p : Spanned ASTPattern) (b : Bindings), allSymbolBindings b →
      ∀ (e : Syntax) (b2 : Bindings),
        Rule.expand_pattern p b = (Except.error e, b2) → False := by
  apply Rule.expand_pattern.induct
    (fun p b => allSymbolBindings b → ∀ e b2,
      Rule.expand_pattern p b = (Except.error e, b2) → False)
    (fun l b => allSymbolBindings b → ∀ e b2,
      Rule.expandPatternList l b = (Except.error e, b2) → False)
  · intro name span bindings r p0 htf hb e b2 h
    have htf' : ASTPattern.try_from
        (Rule.resolve_symbol name span bindings).1.item = Except.ok p0 := htf
    simp only [Rule.expand_pattern, htf'] at h
    simp at h
  · intro name span bindings r s htf hb e b2 h
    have htf' : ASTPattern.try_from
        (Rule.resolve_symbol name span bindings).1.item = Except.error s := htf
    obtain ⟨n, sp, hshape⟩ := (resolve_symbol_allSymbol name span bindings hb).2
    rw [hshape] at htf'
    simp [ASTPattern.try_from] at htf'
  · intro lit span bindings hb e b2 h
    simp [Rule.expand_pattern] at h
  · intro name pattern span bindings p bindings' heq ih hb e b2 h
    simp only [Rule.expand_pattern, heq] at h
    simp at h
  · intro name pattern span bindings e0 bindings' heq ih hb e b2 h
    exact ih hb e0 bindings' heq
  · intro chain span bindings expanded bindings' heq ih hb e b2 h
    simp only [Rule.expand_pattern, heq] at h
    simp at h
  · intro chain span bindings e0 bindings' heq ih hb e b2 h
    exact ih hb e0 bindings' heq
  · intro tuple span bindings expanded bindings' heq ih hb e b2 h
    simp only [Rule.expand_pattern, heq] at h
    simp at h
  · intro tuple span bindings e0 bindings' heq ih hb e b2 h
    exact ih hb e0 bindings' heq
  · intro bindings hb e b2 h
    simp [Rule.expandPatternList] at h
  · intro p ps bindings e0 bindings' heq ih hb e b2 h
    exact ih hb e0 bindings' heq
  · intro p ps bindings q bindings' heq1 e0 bindings'' heq2 ih1 ih2 hb e b2 h
    exact ih2 (expand_pattern_allSymbol_of_eq p bindings bindings' _ hb heq1)
      e0 bindings'' heq2
  · intro p ps bindings q bindings' heq1 qs bindings'' heq2 ih1 ih2 hb e b2 h
    simp only [Rule.expandPatternList, heq1, heq2] at h
    simp at h

theorem expand_arg_pat_no_error :
    ∀ (p : Spanned ArgPattern) (b : Bindings), allSymbolBindings b →
      ∀ (e : Syntax) (b2 : Bindings),
        Rule.expand_arg_pat p b = (Except.error e, b2) → False := by
  apply Rule.expand_arg_pat.induct
    (fun p b => allSymbolBindings b → ∀ e b2,
      Rule.expand_arg_pat p b = (Except.error e, b2) → False)
    (fun l b => allSymbolBindings b → ∀ e b2,
      Rule.expandArgPatList l b = (Except.error e, b2) → False)
  · intro name span bindings hb e b2 h
    simp [Rule.expand_arg_pat] at h
  · intro name span bindings r p0 htf hb e b2 h
    have htf' : ArgPattern.try_from
        (Rule.resolve_symbol name span bindings).1.item = Except.ok p0 := htf
    simp only [Rule.expand_arg_pat, htf'] at h
    simp at h
  · intro name span bindings r s htf hb e b2 h
    have htf' : ArgPattern.try_from
        (Rule.resolve_symbol name span bindings).1.item = Except.error s := htf
    obtain ⟨n, sp, hshape⟩ := (resolve_symbol_allSymbol name span bindings hb).2
    rw [hshape] at htf'
    simp [ArgPattern.try_from] at htf'
  · intro sub_pat span bindings expanded bindings' heq ih hb e b2 h
    simp only [Rule.expand_arg_pat, heq] at h
    simp at h
  · intro sub_pat span bindings e0 bindings' heq ih hb e b2 h
    exact ih hb e0 bindings' heq
  · intro bindings hb e b2 h
    simp [Rule.expandArgPatList] at h
  · intro p ps bindings e0 bindings' heq ih hb e b2 h
    exact ih hb e0 bindings' heq
  · intro p ps bindings q bindings' heq1 e0 bindings'' heq2 ih1 ih2 hb e b2 h
    exact ih2 (expand_arg_pat_allSymbol_of_eq p bindings bindings' _ hb heq1)
      e0 bindings'' heq2
  · intro p ps bindings q bindings' heq1 qs bindings'' heq2 ih1 ih2 hb e b2 h
    simp only [Rule.expandArgPatList, heq1, heq2] at h
    simp at h

/-- Under all-symbol bindings the only error `expand` can produce is the
nested-macro refusal, so any error carries its message. -/
theorem expand_error_message :
    ∀ (t : Spanned AST) (b : Bindings), allSymbolBindings b →
      ∀ (e : Syntax) (b2 : Bindings),
        Rule.expand t b = (Except.error e, b2) →
        e.message = "Nested macros are not allowed yet" := by
  apply Rule.expand.induct
    (fun t b => allSymbolBindings b → ∀ e b2,
      Rule.expand t b = (Except.error e, b2) →
      e.message = "Nested macros are not allowed yet")
    (fun l b => allSymbolBindings b → ∀ e b2,
      Rule.expandList l b = (Except.error e, b2) →
      e.message = "Nested macros are not allowed yet")
  · intro name span bindings hb e b2 h
    simp [Rule.expand] at h
  · intro lit span bindings hb e b2 h
    simp [Rule.expand] at h
  · intro forms span bindings fs bindings' heq ih hb e b2 h
    simp only [Rule.expand, heq] at h
    simp at h
  · intro forms span bindings e0 bindings' heq ih hb e b2 h
    simp only [Rule.expand, heq, Prod.mk.injEq, Except.error.injEq] at h
    rw [← h.1]
    exact ih hb e0 bindings' heq
  · intro branches span bindings fs bindings' heq ih hb e b2 h
    simp only [Rule.expand, heq] at h
    simp at h
  · intro branches span bindings e0 bindings' heq ih hb e b2 h
    simp only [Rule.expand, heq, Prod.mk.injEq, Except.error.injEq] at h
    rw [← h.1]
    exact ih hb e0 bindings' heq
  · intro expression span bindings e0 bindings' heq ih hb e b2 h
    simp only [Rule.expand, heq] at h
    simp at h
  · intro expression span bindings err bindings' heq ih hb e b2 h
    simp only [Rule.expand, heq, Prod.mk.injEq, Except.error.injEq] at h
    rw [← h.1]
    exact ih hb err bindings' heq
  · intro argument function span bindings e0 bindings'' heq ih hb e b2 h
    simp only [Rule.expand, heq, Prod.mk.injEq, Except.error.injEq] at h
    rw [← h.1]
    exact ih hb e0 bindings'' heq
  · intro argument function span bindings f bindings'' heq1 e0 b3 heq2 ih1 ih2 hb e b2 h
    simp only [Rule.expand, heq1, heq2, Prod.mk.injEq, Except.error.injEq] at h
    rw [← h.1]
    exact ih2 (expand_allSymbol_of_eq argument bindings bindings'' _ hb heq1)
      e0 b3 heq2
  · intro argument function span bindings f bindings'' heq1 f2 b3 heq2 ih1 ih2 hb e b2 h
    simp only [Rule.expand, heq1, heq2] at h
    simp at h
  · intro pattern span bindings p bindings' heq hb e b2 h
    simp only [Rule.expand, heq] at h
    simp at h
  · intro pattern span bindings e0 bindings' heq hb e b2 h
    exact (expand_pattern_no_error ⟨pattern, span⟩ bindings hb e0 bindings' heq).elim
  · intro arg_pat span bindings p bindings' heq hb e b2 h
    simp only [Rule.expand, heq] at h
    simp at h
  · intro arg_pat span bindings e0 bindings' heq hb e b2 h
    exact (expand_arg_pat_no_error ⟨arg_pat, span⟩ bindings hb e0 bindings' heq).elim
  · intro pattern expression span bindings e0 bindings' heq hb e b2 h
    exact (expand_pattern_no_error pattern bindings hb e0 bindings' heq).elim
  · intro pattern expression span bindings q bindings' heq1 e0 bindings'' heq2 ih hb e b2 h
    simp only [Rule.expand, heq1, heq2, Prod.mk.injEq, Except.error.injEq] at h
    rw [← h.1]
    exact ih (expand_pattern_allSymbol_of_eq pattern bindings bindings' _ hb heq1)
      e0 bindings'' heq2
  · intro pattern expression span bindings q bindings' heq1 f bindings'' heq2 ih hb e b2 h
    simp only [Rule.expand, heq1, heq2] at h
    simp at h
  · intro pattern expression span bindings e0 bindings' heq hb e b2 h
    exact (expand_pattern_no_error pattern bindings hb e0 bindings' heq).elim
  · intro pattern expression span bindings q bindings' heq1 e0 bindings'' heq2 ih hb e b2 h
    simp only [Rule.expand, heq1, heq2, Prod.mk.injEq, Except.error.injEq] at h
    rw [← h.1]
    exact ih (expand_pattern_allSymbol_of_eq pattern bindings bindings' _ hb heq1)
      e0 bindings'' heq2
  · intro pattern expression span bindings q bindings' heq1 f bindings'' heq2 ih hb e b2 h
    simp only [Rule.expand, heq1, heq2] at h
    simp at h
  · intro kind expression span bindings e0 bindings' heq ih hb e b2 h
    simp only [Rule.expand, heq] at h
    simp at h
  · intro kind expression span bindings err bindings' heq ih hb e b2 h
    simp only [Rule.expand, heq, Prod.mk.injEq, Except.error.injEq] at h
    rw [← h.1]
    exact ih hb err bindings' heq
  · intro tuple span bindings fs bindings' heq ih hb e b2 h
    simp only [Rule.expand, heq] at h
    simp at h
  · intro tuple span bindings e0 bindings' heq ih hb e b2 h
    simp only [Rule.expand, heq, Prod.mk.injEq, Except.error.injEq] at h
    rw [← h.1]
    exact ih hb e0 bindings' heq
  · intro arg_pat expression span bindings e0 bindings' heq hb e b2 h
    exact (expand_arg_pat_no_error arg_pat bindings hb e0 bindings' heq).elim
  · intro arg_pat expression span bindings q bindings' heq1 e0 bindings'' heq2 ih hb e b2 h
    simp only [Rule.expand, heq1, heq2, Prod.mk.injEq, Except.error.injEq] at h
    rw [← h.1]
    exact ih (expand_arg_pat_allSymbol_of_eq arg_pat bindings bindings' _ hb heq1)
      e0 bindings'' heq2
  · intro arg_pat expression span bindings q bindings' heq1 f bindings'' heq2 ih hb e b2 h
    simp only [Rule.expand, heq1, heq2, Prod.mk.injEq, Except.error.injEq] at h
    rw [← h.1]
    rfl
  · intro name expression span bindings e0 bindings' heq ih hb e b2 h
    simp only [Rule.expand, heq] at h
    simp at h
  · intro name expression span bindings err bindings' heq ih hb e b2 h
    simp only [Rule.expand, heq, Prod.mk.injEq, Except.error.injEq] at h
    rw [← h.1]
    exact ih hb err bindings' heq
  · intro bindings hb e b2 h
    simp [Rule.expandList] at h
  · intro t ts bindings e0 bindings'' heq ih hb e b2 h
    simp only [Rule.expandList, heq, Prod.mk.injEq, Except.error.injEq] at h
    rw [← h.1]
    exact ih hb e0 bindings'' heq
  · intro t ts bindings f bindings'' heq1 e0 b3 heq2 ih1 ih2 hb e b2 h
    simp only [Rule.expandList, heq1, heq2, Prod.mk.injEq, Except.error.injEq] at h
    rw [← h.1]
    exact ih2 (expand_allSymbol_of_eq t bindings bindings'' _ hb heq1) e0 b3 heq2
  · intro t ts bindings f bindings'' heq1 ts' b3 heq2 ih1 ih2 hb e b2 h
    simp only [Rule.expandList, heq1, heq2] at h
    simp at h

/-- A tree containing a nested macro definition never expands cleanly:
every such node is reached (or an earlier error aborts first), and the
Syntax arm always errors. -/
theorem expand_error_of_containsSyntax :
    ∀ (t : Spanned AST) (b : Bindings), containsSyntaxNode t = true →
      ∃ e b2, Rule.expand t b = (Except.error e, b2) := by
  apply Rule.expand.induct
    (fun t b => containsSyntaxNode t = true →
      ∃ e b2, Rule.expand t b = (Except.error e, b2))
    (fun l b => containsSyntaxList l = true →
      ∃ e b2, Rule.expandList l b = (Except.error e, b2))
  · intro name span bindings hc
    simp [containsSyntaxNode] at hc
  · intro lit span bindings hc
    simp [containsSyntaxNode] at hc
  · intro forms span bindings fs bindings' heq ih hc
    simp only [containsSyntaxNode] at hc
    obtain ⟨e, b2, hE⟩ := ih hc
    rw [heq] at hE
    simp at hE
  · intro forms span bindings e0 bindings' heq ih hc
    exact ⟨e0, bindings', by simp only [Rule.expand, heq]⟩
  · intro branches span bindings fs bindings' heq ih hc
    simp only [containsSyntaxNode] at hc
    obtain ⟨e, b2, hE⟩ := ih hc
    rw [heq] at hE
    simp at hE
  · intro branches span bindings e0 bindings' heq ih hc
    exact ⟨e0, bindings', by simp only [Rule.expand, heq]⟩
  · intro expression span bindings e0 bindings' heq ih hc
    simp only [containsSyntaxNode] at hc
    obtain ⟨e, b2, hE⟩ := ih hc
    rw [heq] at hE
    simp at hE
  · intro expression span bindings err bindings' heq ih hc
    exact ⟨err, bindings', by simp only [Rule.expand, heq]⟩
  · intro argument function span bindings e0 bindings'' heq ih hc
    exact ⟨e0, bindings'', by simp only [Rule.expand, heq]⟩
  · intro argument function span bindings f bindings'' heq1 e0 b3 heq2 ih1 ih2 hc
    exact ⟨e0, b3, by simp only [Rule.expand, heq1, heq2]⟩
  · intro argument function span bindings f bindings'' heq1 f2 b3 heq2 ih1 ih2 hc
    simp only [containsSyntaxNode, Bool.or_eq_true] at hc
    rcases hc with hc | hc
    · obtain ⟨e, b2, hE⟩ := ih1 hc
      rw [heq1] at hE
      simp at hE
    · obtain ⟨e, b2, hE⟩ := ih2 hc
      rw [heq2] at hE
      simp at hE
  · intro pattern span bindings p bindings' heq hc
    simp [containsSyntaxNode] at hc
  · intro pattern span bindings e0 bindings' heq hc
    simp [containsSyntaxNode] at hc
  · intro arg_pat span bindings p bindings' heq hc
    simp [containsSyntaxNode] at hc
  · intro arg_pat span bindings e0 bindings' heq hc
    simp [containsSyntaxNode] at hc
  · intro pattern expression span bindings e0 bindings' heq hc
    exact ⟨e0, bindings', by simp only [Rule.expand, heq]⟩
  · intro pattern expression span bindings q bindings' heq1 e0 bindings'' heq2 ih hc
    exact ⟨e0, bindings'', by simp only [Rule.expand, heq1, heq2]⟩
  · intro pattern expression span bindings q bindings' heq1 f bindings'' heq2 ih hc
    simp only [containsSyntaxNode] at hc
    obtain ⟨e, b2, hE⟩ := ih hc
    rw [heq2] at hE
    simp at hE
  · intro pattern expression span bindings e0 bindings' heq hc
    exact ⟨e0, bindings', by simp only [Rule.expand, heq]⟩
  · intro pattern expression span bindings q bindings' heq1 e0 bindings'' heq2 ih hc
    exact ⟨e0, bindings'', by simp only [Rule.expand, heq1, heq2]⟩
  · intro pattern expression span bindings q bindings' heq1 f bindings'' heq2 ih hc
    simp only [containsSyntaxNode] at hc
    obtain ⟨e, b2, hE⟩ := ih hc
    rw [heq2] at hE
    simp at hE
  · intro kind expression span bindings e0 bindings' heq ih hc
    simp only [containsSyntaxNode] at hc
    obtain ⟨e, b2, hE⟩ := ih hc
    rw [heq] at hE
    simp at hE
  · intro kind expression span bindings err bindings' heq ih hc
    exact ⟨err, bindings', by simp only [Rule.expand, heq]⟩
  · intro tuple span bindings fs bindings' heq ih hc
    simp only [containsSyntaxNode] at hc
    obtain ⟨e, b2, hE⟩ := ih hc
    rw [heq] at hE
    simp at hE
  · intro tuple span bindings e0 bindings' heq ih hc
    exact ⟨e0, bindings', by simp only [Rule.expand, heq]⟩
  · intro arg_pat expression span bindings e0 bindings' heq hc
    exact ⟨e0, bindings', by simp only [Rule.expand, heq]⟩
  · intro arg_pat expression span bindings q bindings' heq1 e0 bindings'' heq2 ih hc
    exact ⟨e0, bindings'', by simp only [Rule.expand, heq1, heq2]⟩
  · intro arg_pat expression span bindings q bindings' heq1 f bindings'' heq2 ih hc
    exact ⟨Syntax.error "Nested macros are not allowed yet" span, bindings'',
      by simp only [Rule.expand, heq1, heq2]⟩
  · intro name expression span bindings e0 bindings' heq ih hc
    simp only [containsSyntaxNode] at hc
    obtain ⟨e, b2, hE⟩ := ih hc
    rw [heq] at hE
    simp at hE
  · intro name expression span bindings err bindings' heq ih hc
    exact ⟨err, bindings', by simp only [Rule.expand, heq]⟩
  · intro bindings hc
    simp [containsSyntaxList] at hc
  · intro t ts bindings e0 bindings'' heq ih hc
    exact ⟨e0, bindings'', by simp only [Rule.expandList, heq]⟩
  · intro t ts bindings f bindings'' heq1 e0 b3 heq2 ih1 ih2 hc
    exact ⟨e0, b3, by simp only [Rule.expandList, heq1, heq2]⟩
  · intro t ts bindings f bindings'' heq1 ts' b3 heq2 ih1 ih2 hc
    simp only [containsSyntaxList, Bool.or_eq_true] at hc
    rcases hc with hc | hc
    · obtain ⟨e, b2, hE⟩ := ih1 hc
      rw [heq1] at hE
      simp at hE
    · obtain ⟨e, b2, hE⟩ := ih2 hc
      rw [heq2] at hE
      simp at hE

/-- Counterexample to claim C6 as written: expanding the tree
Syntax(Symbol x, Data 1) with `x` bound to the literal Data 1 returns a
static error whose message is the symbol-to-pattern coercion message,
which does not contain "Nested macros". -/
theorem expand_nested_macro_counterexample :
    Rule.expand treeC6 bindingsC6
      = (Except.error (Syntax.error
          "a spliced value may not be used as an argument pattern" ⟨"n", 0, 1⟩),
        bindingsC6)
    ∧ strContains "a spliced value may not be used as an argument pattern"
        "Nested macros" = false := by
  constructor
  · have hr : Rule.resolve_symbol "x" ⟨"n", 0, 1⟩ bindingsC6
        = (⟨AST.Data (Data.Integer 1), ⟨"n", 9, 1⟩⟩, bindingsC6) := rfl
    have ha : Rule.expand_arg_pat ⟨ArgPattern.Symbol "x", ⟨"n", 0, 1⟩⟩ bindingsC6
        = (Except.error (Syntax.error
            "a spliced value may not be used as an argument pattern" ⟨"n", 0, 1⟩),
          bindingsC6) := by
      simp only [Rule.expand_arg_pat, hr, ArgPattern.try_from]
    simp only [treeC6, Rule.expand, ha]
  · rfl

/-- Claim C6 (amended): expanding any tree containing a Syntax node always
returns a static error; when every tree bound in the bindings map is a
plain symbol node — in particular for the empty map — the error's message
contains "Nested macros".  As stated, for an arbitrary bindings map, the
message may instead come from an earlier coercion failure inside the
Syntax node's sub-expansion (see the counterexample). -/
theorem expand_nested_macro_error :
    (∀ (t : Spanned AST) (b : Bindings), containsSyntaxNode t = true →
        ∃ e b2, Rule.expand t b = (Except.error e, b2))
    ∧ (∀ (t : Spanned AST) (b : Bindings), containsSyntaxNode t = true →
        allSymbolBindings b →
        ∃ e b2, Rule.expand t b = (Except.error e, b2)
          ∧ strContains e.message "Nested macros" = true) := by
  constructor
  · exact expand_error_of_containsSyntax
  · intro t b hc hb
    obtain ⟨e, b2, hE⟩ := expand_error_of_containsSyntax t b hc
    refine ⟨e, b2, hE, ?_⟩
    rw [expand_error_message t b hb e b2 hE]
    rfl

/-- Witness for C6's amended theorem: a lone nested macro definition under
empty bindings errors with a message containing "Nested macros". -/
theorem expand_nested_macro_error_witness :
    ∃ e b2, Rule.expand ⟨AST.Syntax ⟨ArgPattern.Keyword "m", Span.empty⟩
        ⟨AST.Data (Data.Integer 1), Span.empty⟩, Span.empty⟩ []
        = (Except.error e, b2)
      ∧ strContains e.message "Nested macros" = true :=
  expand_nested_macro_error.2
    ⟨AST.Syntax ⟨ArgPattern.Keyword "m", Span.empty⟩
      ⟨AST.Data (Data.Integer 1), Span.empty⟩, Span.empty⟩ []
    (by simp [containsSyntaxNode])
    (fun e he => absurd he (List.not_mem_nil e))

end Passerine
